import Mathlib

/- A shallow embedding, in Lean, of the CloudFormation custom-resource handler
for Kubernetes manifests (`lambda_function.py`): the JSON-like tree model, the
dotted/bracketed path parser `to_path`, the generic tree walker `traverse` with
its two derived operations, the type coercion `set_type`/`fix_types`, the
manifest namer `generate_name`, the output extraction `build_output`, the
KubeConfig path validation, the fallback-physical-id pattern test of the Delete
branch, and the decision logic of `lambda_handler` with the external
collaborators (S3/KMS fetch, `kubectl` subprocess, HTTP callback) abstracted
as an oracle recording their observable results. -/

namespace KubeManifest

/-- JSON-like Python values as they occur in a parsed manifest: dicts are
ordered association lists (insertion order, as Python dicts), lists are lists,
and the scalars are strings, ints, booleans and null. -/
inductive Value where
  | str  : String → Value
  | int  : Int → Value
  | bool : Bool → Value
  | null : Value
  | arr  : List Value → Value
  | obj  : List (String × Value) → Value

/-- One element of a traversal path as built by `traverse` (lines 128-144 of
the source): dict keys are plain strings (`path + [k]`), list indices are
singleton int lists (`path + [[idx]]`). `to_path` can additionally produce the
empty list `[]` as its synthetic final element, hence `idx` carries a list. -/
inductive Seg where
  | key : String → Seg
  | idx : List Nat → Seg
deriving DecidableEq

/- Python string primitives, modelled on character lists so that every
definition evaluates by kernel reduction. -/

/-- Python `str.split(sep)` for a one-character separator: empty pieces are
kept and the result always has at least one piece. -/
def pySplit (sep : Char) : List Char → List (List Char)
  | [] => [[]]
  | c :: cs =>
    if c = sep then [] :: pySplit sep cs
    else
      match pySplit sep cs with
      | [] => [[c]]
      | p :: ps => (c :: p) :: ps

/-- Python `str.strip('.')`: drop every leading and trailing `'.'`. -/
def pyStripDots (s : List Char) : List Char :=
  ((s.dropWhile fun c => c = '.').reverse.dropWhile fun c => c = '.').reverse

/-- ASCII lower-casing of one character, which is all Python `str.lower`
does on the identifiers that occur here. -/
def lowerChar (c : Char) : Char :=
  if 'A' ≤ c ∧ c ≤ 'Z' then Char.ofNat (c.toNat + 32) else c

/-- Python `str.lower`. -/
def pyLower (s : String) : String := ⟨s.data.map lowerChar⟩

/-- Python `str.isdigit` on the ASCII decimal digits: nonempty and all
characters in `'0'..'9'`. -/
def pyIsDigit (s : String) : Bool := !s.data.isEmpty && s.data.all Char.isDigit

/-- The numeric value of a decimal digit string, Python `int(...)`. -/
def digitsToNat (ds : List Char) : Nat :=
  ds.foldl (fun a d => a * 10 + (d.toNat - '0'.toNat)) 0

/-- Python `int(...)` of a digit string, as a `Value`-level integer. -/
def pyInt (s : String) : Int := Int.ofNat (digitsToNat s.data)

/-- Python `s.split('/')`, as strings. -/
def pySplitSlash (s : String) : List String := (pySplit '/' s.data).map fun p => ⟨p⟩

/-- Python dict membership/lookup on an association list: first match wins. -/
def lookupV : List (String × Value) → String → Option Value
  | [], _ => none
  | (k, v) :: rest, wanted => if k = wanted then some v else lookupV rest wanted

/-- Python dict item assignment `d[k] = v`: replace the first binding of `k`
in place, or append a fresh binding at the end (dict insertion order). -/
def setKey : List (String × Value) → String → Value → List (String × Value)
  | [], wanted, v => [(wanted, v)]
  | (k, w) :: rest, wanted, v =>
    if k = wanted then (wanted, v) :: rest else (k, w) :: setKey rest wanted v

/-- Python truthiness of a `Value` (`if x:`): empty strings, zero, `False`,
`None` and empty containers are falsy. -/
def truthy : Value → Bool
  | .str s => !s.data.isEmpty
  | .int n => n != 0
  | .bool b => b
  | .null => false
  | .arr xs => !xs.isEmpty
  | .obj kvs => !kvs.isEmpty

/- traverse (source lines 128-144): recursive post-order copy of a dict/list/
scalar tree; the callback receives the node's path and its already-transformed
subtree. The dict and list comprehensions of the source become the two mutual
helpers below. -/

mutual

/-- traverse (lines 128-144): `callback(path, value)` fires at every node,
children first; the root is visited with the empty path. -/
def traverse (cb : List Seg → Value → Value) (path : List Seg) : Value → Value
  | .obj kvs => cb path (.obj (traverseObj cb path kvs))
  | .arr xs  => cb path (.arr (traverseArr cb path 0 xs))
  | v        => cb path v

/-- The dict comprehension of `traverse`: each value recurses with its key
appended to the path. -/
def traverseObj (cb : List Seg → Value → Value) (path : List Seg) :
    List (String × Value) → List (String × Value)
  | [] => []
  | (k, v) :: rest =>
      (k, traverse cb (path ++ [Seg.key k]) v) :: traverseObj cb path rest

/-- The list comprehension of `traverse`: element `i` recurses with the
singleton index `[i]` appended to the path. -/
def traverseArr (cb : List Seg → Value → Value) (path : List Seg) (i : Nat) :
    List Value → List Value
  | [] => []
  | v :: rest =>
      traverse cb (path ++ [Seg.idx [i]]) v :: traverseArr cb path (i + 1) rest

end

/- to_path (source lines 165-179). The regex pair
`re.findall(r'\[[0-9]+\]', path)` / `re.split(r'\[[0-9]+\]', path)` is
modelled by cutting the string at every literal `'['` and then reading
`digits+ ']'` at the head of each following chunk: an index token always
starts with `'['` and can contain no further `'['`, so the non-overlapping
left-to-right regex matches are exactly the chunk heads of that shape, and a
`'['` whose chunk head does not have that shape stays literal text. -/

/-- Read `digits+ ']'` at the head of a chunk that followed a literal `'['`;
on success return the index value (Python `int(i[1:-1])`) and the rest. -/
def tryIdx (c : List Char) : Option (Nat × List Char) :=
  match c.takeWhile Char.isDigit with
  | [] => none
  | ds =>
    match c.dropWhile Char.isDigit with
    | ']' :: r => some (digitsToNat ds, r)
    | _ => none

/-- Walk the `'['`-chunks: a chunk whose head parses as an index token ends
the current split piece and emits the index; otherwise its `'['` was literal
and the chunk is appended to the current piece. -/
def procChunks : List Char → List (List Char) → List (List Char) × List Nat
  | cur, [] => ([cur], [])
  | cur, c :: rest =>
    match tryIdx c with
    | some (n, r) =>
      let pr := procChunks r rest
      (cur :: pr.1, n :: pr.2)
    | none => procChunks (cur ++ '[' :: c) rest

/-- The `re.split` pieces and `re.findall` index values of an address string:
`(lists, indexes)` of the source. -/
def scanIdx (s : List Char) : List (List Char) × List Nat :=
  match pySplit '[' s with
  | [] => ([s], [])
  | h :: t => procChunks h t

/-- The generator `_iter_path`: for each split piece yield the `'.'`-separated
parts of the piece stripped of outer dots, then the matching index — or the
synthetic empty list once the indexes run out. -/
def buildSegs : List (List Char) → List Nat → List Seg
  | [], _ => []
  | p :: ps, idxs =>
    ((pySplit '.' (pyStripDots p)).map fun k => Seg.key ⟨k⟩) ++
      match idxs with
      | i :: rest => Seg.idx [i] :: buildSegs ps rest
      | [] => Seg.idx [] :: buildSegs ps []

/-- to_path (lines 165-179) on a string address: build the full generated
list, then drop its final element (`list(_iter_path(path))[:-1]`). The
list-typed branch of the source is the identity and is not modelled. -/
def to_path (path : String) : List Seg :=
  let pr := scanIdx path.data
  (buildSegs pr.1 pr.2).dropLast

/-- traverse_modify (lines 147-155): apply `action` exactly at the nodes whose
path equals the parsed target address; every other node passes through. -/
def traverse_modify (obj : Value) (target_path : String) (action : Value → Value) : Value :=
  let tp := to_path target_path
  traverse (fun path value => if path = tp then action value else value) [] obj

/-- traverse_modify_all (lines 158-162): apply `action` at every node. -/
def traverse_modify_all (obj : Value) (action : Value → Value) : Value :=
  traverse (fun _ value => action value) [] obj

/-- set_type (lines 182-190): rewrite a string scalar that spells a boolean
(case-insensitively) or a decimal integer; everything else passes through. -/
def set_type : Value → Value
  | .str s =>
    if pyLower s = "false" then .bool false
    else if pyLower s = "true" then .bool true
    else if pyIsDigit s then .int (pyInt s)
    else .str s
  | v => v

/-- fix_types (lines 193-194): `set_type` at every node of the manifest. -/
def fix_types (manifest : Value) : Value := traverse_modify_all manifest set_type

/-- generate_name (lines 98-107). `stack_name = event['StackId'].split('/')[1]`
raises when the stack id has no second segment, and the dictionary accesses
raise when the manifest or its `metadata` are not dicts; raising paths return
`none`. When `metadata` exists and has neither `name` nor `generateName`, a
truthy physical id contributes `metadata.name` (its last `/`-segment) and
otherwise `metadata.generateName` is `"cfn-" + stack_name.lower() + "-"`. -/
def generate_name (manifest : Value) (stackId : String)
    (physical_resource_id : Option Value) : Option Value :=
  match (pySplitSlash stackId)[1]? with
  | none => none
  | some stack_name =>
    match manifest with
    | .obj kvs =>
      match lookupV kvs "metadata" with
      | none => some (.obj kvs)
      | some (.obj md) =>
        if (lookupV md "name").isSome || (lookupV md "generateName").isSome then
          some (.obj kvs)
        else
          match physical_resource_id with
          | some p =>
            if truthy p then
              match p with
              | .str ps =>
                some (.obj (setKey kvs "metadata"
                  (.obj (setKey md "name" (.str ((pySplitSlash ps).getLastD ""))))))
              | _ => none
            else
              some (.obj (setKey kvs "metadata"
                (.obj (setKey md "generateName"
                  (.str ("cfn-" ++ pyLower stack_name ++ "-"))))))
          | none =>
            some (.obj (setKey kvs "metadata"
              (.obj (setKey md "generateName"
                (.str ("cfn-" ++ pyLower stack_name ++ "-"))))))
      | some _ => none
    | _ => none

/-- build_output (lines 110-115): collect, in this fixed order, the five
metadata fields that are present; accessing `metadata` on a response that is
not a dict with that key raises, modelled as `none`. -/
def build_output (kube_response : Value) : Option (List (String × Value)) :=
  match kube_response with
  | .obj kvs =>
    match lookupV kvs "metadata" with
    | some (.obj md) =>
      some (["uid", "selfLink", "resourceVersion", "namespace", "name"].filterMap
        fun k => (lookupV md k).map fun v => (k, v))
    | some _ => none
    | none => none
  | _ => none

/-- The invocation request: `RequestType`, the `ResourceProperties` the
handler reads, the optional prior `PhysicalResourceId`, and the identifiers
echoed into the response. -/
structure Event where
  requestType : String
  manifest : Value
  kubeConfigPath : String
  physicalResourceId : Option String
  stackId : String
  requestId : String
  logicalResourceId : String

/-- The execution context: only `log_stream_name` is read by `send`. -/
structure Ctx where
  log_stream_name : String

/-- get_config_details (lines 118-125): split the KubeConfigPath on `/`,
require at least bucket and key below an `s3://` scheme, and return
`(bucket, key)`; the KMS context is opaque and not modelled. -/
def get_config_details (ev : Event) : Except String (String × String) :=
  let s3_uri_parts := pySplitSlash ev.kubeConfigPath
  if s3_uri_parts.length < 4 ∨ s3_uri_parts.take 2 ≠ ["s3:", ""] then
    .error "Invalid KubeConfigPath, must be in the format s3://bucket-name/path/to/config"
  else
    .ok (s3_uri_parts.getD 2 "",
      ⟨List.intercalate "/".data ((s3_uri_parts.drop 3).map String.data)⟩)

/-- The response body `send` (lines 20-53) constructs and PUTs to the
ResponseURL; the HTTP call itself is an external collaborator. -/
structure ResponseBody where
  status : String
  reason : String
  physicalResourceId : Value
  stackId : String
  requestId : String
  logicalResourceId : String
  data : Option Value

/-- send (lines 20-53) as the response body it produces: a falsy reason is
replaced by the CloudWatch pointer, a falsy physical id falls back to the
event's recorded id and then to the log stream name, and `Data` is present
only for a nonempty dict payload. -/
def send (ev : Event) (ctx : Ctx) (response_status : String)
    (response_data : List (String × Value)) (physical_resource_id : Option Value)
    (reason : Option String) : ResponseBody :=
  let msg := "See details in CloudWatch Log Stream: " ++ ctx.log_stream_name
  ⟨response_status,
   (match reason with
    | some r => if r = "" then msg else r
    | none => msg),
   (match physical_resource_id with
    | some p =>
      if truthy p then p
      else
        match ev.physicalResourceId with
        | some q => .str q
        | none => .str ctx.log_stream_name
    | none =>
      match ev.physicalResourceId with
      | some q => .str q
      | none => .str ctx.log_stream_name),
   ev.stackId,
   ev.requestId,
   ev.logicalResourceId,
   if response_data.isEmpty then none else some (.obj response_data)⟩

/-- Consume exactly `n` characters satisfying `p`. -/
def takeCount (p : Char → Bool) : Nat → List Char → Option (List Char)
  | 0, cs => some cs
  | n + 1, c :: cs => if p c then takeCount p n cs else none
  | _ + 1, [] => none

/-- Consume the literal characters `expected`. -/
def expectChars : List Char → List Char → Option (List Char)
  | [], cs => some cs
  | e :: es, c :: cs => if c = e then expectChars es cs else none
  | _ :: _, [] => none

/-- A lowercase hexadecimal character, the class `[a-f0-9]`. -/
def isLowerHex (c : Char) : Bool := c.isDigit || ('a' ≤ c && c ≤ 'f')

/-- The body of the fallback-id pattern of line 226:
`[0-9]{4}/[0-9]{2}/[0-9]{2}/\[$LATEST\][a-f0-9]{32}` matched against the
whole character list. -/
def fallbackCore (cs : List Char) : Bool :=
  (Option.some cs
    |>.bind (takeCount Char.isDigit 4)
    |>.bind (expectChars ['/'])
    |>.bind (takeCount Char.isDigit 2)
    |>.bind (expectChars ['/'])
    |>.bind (takeCount Char.isDigit 2)
    |>.bind (expectChars "/[$LATEST]".data)
    |>.bind (takeCount isLowerHex 32)
    |>.bind fun rest => if rest.isEmpty then some () else none).isSome

/-- `re.search(r'^...$', s)` of line 226: anchored at the start, and `$` also
matches just before one trailing newline. -/
def matchesFallback (s : String) : Bool :=
  fallbackCore s.data ||
    (match s.data.getLast? with
     | some c => c = '\n' && fallbackCore s.data.dropLast
     | none => false)

/-- Observable results of the external collaborators of one invocation:
the S3/KMS kubeconfig fetch (lines 72-89), the parsed JSON of the create and
apply subprocess outputs, and the delete subprocess. `.error` is the message
of the exception the collaborator raised. -/
structure Oracle where
  kubeconfigResult : Except String Unit
  createParsed : Except String Value
  applyParsed : Except String Value
  deleteResult : Except String Unit

/-- What `lambda_handler` hands to `send` in its `finally` block, plus the
record of whether (and on which manifest) `kubectl delete` was invoked. -/
structure HandlerOutcome where
  status : String
  response_data : List (String × Value)
  physical_resource_id : Option Value
  error_message : Option String
  deleteCall : Option Value

/-- The try/except body of lambda_handler (lines 197-236): every `raise` in
the try block jumps to the except clause, which flips the status to FAILED and
records the message, keeping whatever `response_data` and
`physical_resource_id` had been assigned by then. -/
def lambda_handler_core (ev : Event) (o : Oracle) : HandlerOutcome :=
  if ¬ ("s3://".data.isPrefixOf ev.kubeConfigPath.data) then
    ⟨"FAILED", [], none,
     some "KubeConfigPath must be a valid s3 URI (eg.: s3://my-bucket/my-key.txt", none⟩
  else
    match get_config_details ev with
    | .error e => ⟨"FAILED", [], none, some e, none⟩
    | .ok _ =>
      match o.kubeconfigResult with
      | .error e => ⟨"FAILED", [], none, some e, none⟩
      | .ok _ =>
        let pri : Option Value := ev.physicalResourceId.map Value.str
        match generate_name ev.manifest ev.stackId pri with
        | none => ⟨"FAILED", [], pri, some "manifest naming raised", none⟩
        | some named =>
          let manifest := fix_types named
          if ev.requestType = "Create" then
            match o.createParsed with
            | .error e => ⟨"FAILED", [], pri, some e, none⟩
            | .ok kr =>
              match build_output kr with
              | none => ⟨"FAILED", [], pri, some "metadata access raised", none⟩
              | some outp =>
                match lookupV outp "selfLink" with
                | some sl => ⟨"SUCCESS", outp, some sl, none, none⟩
                | none => ⟨"FAILED", outp, pri, some "KeyError: selfLink", none⟩
          else if ev.requestType = "Update" then
            match o.applyParsed with
            | .error e => ⟨"FAILED", [], pri, some e, none⟩
            | .ok kr =>
              match build_output kr with
              | none => ⟨"FAILED", [], pri, some "metadata access raised", none⟩
              | some outp => ⟨"SUCCESS", outp, pri, none, none⟩
          else if ev.requestType = "Delete" then
            match pri with
            | some (.str p) =>
              if ¬ matchesFallback p then
                match o.deleteResult with
                | .error e => ⟨"FAILED", [], pri, some e, some manifest⟩
                | .ok _ => ⟨"SUCCESS", [], pri, none, some manifest⟩
              else ⟨"SUCCESS", [], pri, none, none⟩
            | some _ => ⟨"FAILED", [], pri, some "TypeError: expected string or bytes-like object", none⟩
            | none => ⟨"FAILED", [], pri, some "TypeError: expected string or bytes-like object", none⟩
          else ⟨"SUCCESS", [], pri, none, none⟩

/-- lambda_handler (lines 197-236): the terminal report `send` builds in the
`finally` block, paired with the record of the `kubectl delete` invocation. -/
def lambda_handler (ev : Event) (ctx : Ctx) (o : Oracle) : ResponseBody × Option Value :=
  let out := lambda_handler_core ev o
  (send ev ctx out.status out.response_data out.physical_resource_id out.error_message,
   out.deleteCall)

/-- A scalar node: anything but a dict or a list. -/
def isScalar : Value → Bool
  | .arr _ => false
  | .obj _ => false
  | _ => true

/-- The number of `'.'`-delimited non-empty components of an address string,
the measure the length claim about `to_path` is stated against. -/
def numDotComponents (s : String) : Nat :=
  ((pySplit '.' s.data).filter fun p => !p.isEmpty).length

mutual

/-- No dict anywhere in the tree binds the empty-string key. -/
def noEmptyKey : Value → Bool
  | .obj kvs => noEmptyKeyObj kvs
  | .arr xs => noEmptyKeyArr xs
  | _ => true

/-- `noEmptyKey` over the bindings of a dict. -/
def noEmptyKeyObj : List (String × Value) → Bool
  | [] => true
  | (k, v) :: rest => !(k = "") && noEmptyKey v && noEmptyKeyObj rest

/-- `noEmptyKey` over the elements of a list. -/
def noEmptyKeyArr : List Value → Bool
  | [] => true
  | v :: rest => noEmptyKey v && noEmptyKeyArr rest

end

/- Theorems. -/

/-- Structural induction for the nested inductive `Value`. -/
theorem Value.myInduction (P : Value → Prop)
    (hstr : ∀ s, P (.str s)) (hint : ∀ n, P (.int n))
    (hbool : ∀ b, P (.bool b)) (hnull : P .null)
    (harr : ∀ xs, (∀ x ∈ xs, P x) → P (.arr xs))
    (hobj : ∀ kvs, (∀ p ∈ kvs, P p.2) → P (.obj kvs)) :
    ∀ v, P v
  | .str s => hstr s
  | .int n => hint n
  | .bool b => hbool b
  | .null => hnull
  | .arr xs => harr xs (fun x hx =>
      Value.myInduction P hstr hint hbool hnull harr hobj x)
  | .obj kvs => hobj kvs (fun p hp =>
      Value.myInduction P hstr hint hbool hnull harr hobj p.2)
termination_by v => sizeOf v
decreasing_by
  · have := List.sizeOf_lt_of_mem hx
    simp only [Value.arr.sizeOf_spec]
    omega
  · have h1 := List.sizeOf_lt_of_mem hp
    have h2 : sizeOf p.2 < sizeOf p := by
      obtain ⟨a, b⟩ := p
      simp
    simp only [Value.obj.sizeOf_spec]
    omega


/-- Lower-casing a decimal digit is the identity. -/
theorem lowerChar_digit {c : Char} (h : c.isDigit = true) : lowerChar c = c := by
  unfold lowerChar
  rw [if_neg]
  rintro ⟨h1, h2⟩
  simp [Char.isDigit] at h
  rw [Char.le_def] at h1
  have h1' : 65 ≤ c.val.toNat := h1
  have h3 : c.val.toNat ≤ 57 := h.2
  omega

/-- Lower-casing an all-digit string is the identity. -/
theorem pyLower_digits {s : String} (h : pyIsDigit s = true) : pyLower s = s := by
  obtain ⟨data⟩ := s
  simp [pyIsDigit] at h
  simp [pyLower]
  rw [List.map_congr_left fun c hc => lowerChar_digit (h.2 c hc)]
  simp [List.map_id]

/-- The node action of the coercion is idempotent. -/
theorem set_type_idem (v : Value) : set_type (set_type v) = set_type v := by
  cases v <;> try rfl
  case str s =>
    by_cases hf : pyLower s = "false"
    · simp [set_type, hf]
    · by_cases ht : pyLower s = "true"
      · simp [set_type, hf, ht]
      · by_cases hd : pyIsDigit s
        · simp [set_type, hf, ht, hd]
        · simp [set_type, hf, ht, hd]

/-- On a scalar node `traverse` just fires the callback once. -/
theorem traverse_scalar (cb : List Seg → Value → Value) (p : List Seg) (v : Value)
    (hv : isScalar v = true) : traverse cb p v = cb p v := by
  cases v <;> simp_all [isScalar, traverse]

/-- `set_type` sends scalars to scalars. -/
theorem isScalar_set_type (v : Value) (h : isScalar v = true) :
    isScalar (set_type v) = true := by
  cases v <;> simp_all [isScalar, set_type]
  case str s => split_ifs <;> simp [isScalar]

/-- Walking an already-walked dict a second time changes nothing, provided
that holds of every entry. -/
theorem traverseObj_twice (cb : List Seg → Value → Value) (p q : List Seg)
    (kvs : List (String × Value))
    (ih : ∀ pair ∈ kvs, ∀ p' q',
      traverse cb p' (traverse cb q' pair.2) = traverse cb q' pair.2) :
    traverseObj cb p (traverseObj cb q kvs) = traverseObj cb q kvs := by
  induction kvs with
  | nil => rfl
  | cons kv rest ihr =>
    obtain ⟨k, v⟩ := kv
    simp only [traverseObj]
    rw [ih (k, v) (List.mem_cons_self _ _) (p ++ [Seg.key k]) (q ++ [Seg.key k]),
      ihr fun pair hm => ih pair (List.mem_cons_of_mem _ hm)]

/-- Walking an already-walked list a second time changes nothing, provided
that holds of every element. -/
theorem traverseArr_twice (cb : List Seg → Value → Value) (p q : List Seg) :
    ∀ (xs : List Value) (i : Nat),
    (∀ x ∈ xs, ∀ p' q',
      traverse cb p' (traverse cb q' x) = traverse cb q' x) →
    traverseArr cb p i (traverseArr cb q i xs) = traverseArr cb q i xs := by
  intro xs
  induction xs with
  | nil => intro i _; rfl
  | cons x rest ihr =>
    intro i ih
    simp only [traverseArr]
    rw [ih x (List.mem_cons_self _ _) (p ++ [Seg.idx [i]]) (q ++ [Seg.idx [i]]),
      ihr (i + 1) fun y hm => ih y (List.mem_cons_of_mem _ hm)]

/-- C5: type coercion is idempotent: `fix_types (fix_types v) = fix_types v`
for every value `v`. -/
theorem fix_types_idempotent (v : Value) : fix_types (fix_types v) = fix_types v := by
  suffices h : ∀ p q,
      traverse (fun _ w => set_type w) p (traverse (fun _ w => set_type w) q v)
        = traverse (fun _ w => set_type w) q v by
    simpa [fix_types, traverse_modify_all] using h [] []
  induction v using Value.myInduction with
  | harr xs ih =>
    intro p q
    have hx : ∀ r, traverse (fun _ w => set_type w) r (.arr xs)
        = .arr (traverseArr (fun _ w => set_type w) r 0 xs) := by
      intro r; simp [traverse, set_type]
    have hy : ∀ r ys, traverse (fun _ w => set_type w) r (.arr ys)
        = .arr (traverseArr (fun _ w => set_type w) r 0 ys) := by
      intro r ys; simp [traverse, set_type]
    rw [hx, hy, traverseArr_twice _ _ _ xs 0 ih]
  | hobj kvs ih =>
    intro p q
    have hy : ∀ r ys, traverse (fun _ w => set_type w) r (.obj ys)
        = .obj (traverseObj (fun _ w => set_type w) r ys) := by
      intro r ys; simp [traverse, set_type]
    rw [hy, hy, traverseObj_twice _ _ _ kvs ih]
  | hstr s =>
    intro p q
    rw [traverse_scalar _ q (.str s) rfl]
    show traverse (fun _ w => set_type w) p (set_type (.str s)) = set_type (.str s)
    rw [traverse_scalar _ p _ (isScalar_set_type (.str s) rfl)]
    exact set_type_idem _
  | hint n =>
    intro p q
    rw [traverse_scalar _ q (.int n) rfl]
    show traverse (fun _ w => set_type w) p (set_type (.int n)) = set_type (.int n)
    rw [traverse_scalar _ p _ (isScalar_set_type (.int n) rfl)]
    exact set_type_idem _
  | hbool b =>
    intro p q
    rw [traverse_scalar _ q (.bool b) rfl]
    show traverse (fun _ w => set_type w) p (set_type (.bool b)) = set_type (.bool b)
    rw [traverse_scalar _ p _ (isScalar_set_type (.bool b) rfl)]
    exact set_type_idem _
  | hnull =>
    intro p q
    rw [traverse_scalar _ q .null rfl]
    show traverse (fun _ w => set_type w) p (set_type .null) = set_type .null
    rw [traverse_scalar _ p _ (isScalar_set_type .null rfl)]
    exact set_type_idem _


/-- C2 is false on the code at a concrete input: parsing the empty address
string yields the single empty-key segment `[""]`, not the empty (root)
address, so `traverse_modify` on a scalar root does not apply the action:
with action constantly `null` on root `"x"` the result is `"x"`, not `null`. -/
theorem walkAt_empty_address_counterexample :
    traverse_modify (Value.str "x") "" (fun _ => Value.null) ≠ Value.null := by
  have h : traverse_modify (Value.str "x") "" (fun _ => Value.null) = Value.str "x" := rfl
  simp [h]

/-- C2 (amended): for every scalar value `v` and every action `a`,
`traverse_modify v "" a = v` — the empty address parses to the single
empty-key segment, which never equals the root's empty path, so the action is
applied nowhere and the scalar passes through unchanged. -/
theorem walkAt_empty_address_amended (v : Value) (a : Value → Value)
    (hv : isScalar v = true) : traverse_modify v "" a = v := by
  cases v <;> simp_all [isScalar] <;> rfl

/-- Witness for the amended C2 at a concrete scalar. -/
theorem walkAt_empty_address_amended_witness :
    isScalar (Value.int 5) = true ∧
      traverse_modify (Value.int 5) "" (fun _ => Value.null) = Value.int 5 :=
  ⟨rfl, walkAt_empty_address_amended (Value.int 5) (fun _ => Value.null) rfl⟩

/-- C3 is false on the code for an address with an interior bracketed index:
`to_path "a[0].b"` has three segments (`"a"`, the index `[0]`, `"b"`), while
`"a[0].b"` has two `'.'`-delimited non-empty components. -/
theorem to_path_length_counterexample :
    (to_path "a[0].b").length ≠ numDotComponents "a[0].b" ∧
      (to_path "a[0].b").length = 3 ∧ numDotComponents "a[0].b" = 2 := by
  refine ⟨?_, rfl, rfl⟩
  decide

/-- C4: the node coercion `set_type` rewrites string scalars — a
case-insensitive true/false spelling becomes the boolean, an all-decimal
string becomes the integer it denotes — and leaves every other string and
every non-string node unchanged; `fix_types` applies exactly this at scalar
nodes. -/
theorem set_type_spec :
    (∀ s : String, pyLower s = "true" → set_type (.str s) = .bool true) ∧
    (∀ s : String, pyLower s = "false" → set_type (.str s) = .bool false) ∧
    (∀ s : String, pyIsDigit s = true → set_type (.str s) = .int (pyInt s)) ∧
    (∀ s : String, pyLower s ≠ "true" → pyLower s ≠ "false" → pyIsDigit s = false →
      set_type (.str s) = .str s) ∧
    (∀ n, set_type (.int n) = .int n) ∧
    (∀ b, set_type (.bool b) = .bool b) ∧
    set_type .null = .null ∧
    (∀ xs, set_type (.arr xs) = .arr xs) ∧
    (∀ kvs, set_type (.obj kvs) = .obj kvs) ∧
    (∀ v, isScalar v = true → fix_types v = set_type v) := by
  refine ⟨?_, ?_, ?_, ?_, fun _ => rfl, fun _ => rfl, rfl, fun _ => rfl, fun _ => rfl, ?_⟩
  · intro s ht
    have hf : pyLower s ≠ "false" := by rw [ht]; decide
    simp [set_type, ht, hf]
  · intro s hf
    simp [set_type, hf]
  · intro s hd
    have hs : pyLower s = s := pyLower_digits hd
    have hf : s ≠ "false" := by
      intro h; rw [h] at hd; exact absurd hd (by decide)
    have ht : s ≠ "true" := by
      intro h; rw [h] at hd; exact absurd hd (by decide)
    simp [set_type, hs, hf, ht, hd]
  · intro s ht hf hd
    simp [set_type, ht, hf, hd]
  · intro v hv
    have := traverse_scalar (fun _ w => set_type w) [] v hv
    simpa [fix_types, traverse_modify_all] using this

/-- Witness for C4 at the concrete examples of the specification. -/
theorem set_type_spec_witness :
    (pyLower "tRuE" = "true" ∧ set_type (.str "tRuE") = .bool true) ∧
    (pyLower "FALSE" = "false" ∧ set_type (.str "FALSE") = .bool false) ∧
    (pyIsDigit "42" = true ∧ set_type (.str "42") = .int 42) ∧
    (pyIsDigit "007" = true ∧ set_type (.str "007") = .int 7) ∧
    set_type (.str "4.5") = .str "4.5" ∧
    set_type (.str "on") = .str "on" ∧
    set_type (.int 42) = .int 42 :=
  ⟨⟨by decide, set_type_spec.1 "tRuE" (by decide)⟩,
   ⟨by decide, set_type_spec.2.1 "FALSE" (by decide)⟩,
   ⟨by decide, set_type_spec.2.2.1 "42" (by decide)⟩,
   ⟨by decide, set_type_spec.2.2.1 "007" (by decide)⟩,
   set_type_spec.2.2.2.1 "4.5" (by decide) (by decide) (by decide),
   set_type_spec.2.2.2.1 "on" (by decide) (by decide) (by decide),
   set_type_spec.2.2.2.2.1 42⟩


/-- Looking a key up in the list built by extracting `keys` from `md`: inside
`keys` the extraction is faithful, outside it nothing is ever present. -/
theorem lookupV_extract (keys : List String) (md : List (String × Value)) (k : String) :
    lookupV (keys.filterMap fun k' => (lookupV md k').map fun v => (k', v)) k
      = if k ∈ keys then lookupV md k else none := by
  induction keys with
  | nil => simp [lookupV]
  | cons k' ks ih =>
    by_cases hk : k' = k
    · subst hk
      cases h : lookupV md k' with
      | some v => simp [List.filterMap_cons, h, lookupV]
      | none =>
        simp only [List.filterMap_cons, h, Option.map_none']
        rw [ih]
        by_cases hmem : k' ∈ ks <;> simp [hmem, h]
    · cases h : lookupV md k' with
      | some v =>
        simp only [List.filterMap_cons, h, Option.map_some']
        simp [lookupV, hk, ih, List.mem_cons, Ne.symm hk]
      | none =>
        simp only [List.filterMap_cons, h, Option.map_none']
        rw [ih]
        simp [List.mem_cons, Ne.symm hk]

/-- C9: on a tool output that is a map with a `metadata` map, `build_output`
succeeds and its result binds each of the five fields `uid`, `selfLink`,
`resourceVersion`, `namespace`, `name` exactly when the metadata map binds it,
to the same value, and binds nothing else. -/
theorem build_output_spec (kvs md : List (String × Value))
    (h : lookupV kvs "metadata" = some (.obj md)) :
    ∃ outp, build_output (.obj kvs) = some outp ∧
      ∀ k : String,
        lookupV outp k =
          if k ∈ ["uid", "selfLink", "resourceVersion", "namespace", "name"]
          then lookupV md k else none := by
  have hb : build_output (.obj kvs)
      = some (["uid", "selfLink", "resourceVersion", "namespace", "name"].filterMap
          fun k => (lookupV md k).map fun v => (k, v)) := by
    simp [build_output, h]
  exact ⟨_, hb, fun k => lookupV_extract _ md k⟩

/-- Witness for C9 on a concrete response: `uid` and `name` present, but not
`selfLink`, and an unrelated metadata field never surfaces. -/
theorem build_output_spec_witness :
    lookupV [("kind", Value.str "Pod"),
             ("metadata", Value.obj [("uid", Value.str "u1"), ("junk", Value.int 1),
                                     ("name", Value.str "x")])] "metadata"
        = some (.obj [("uid", Value.str "u1"), ("junk", Value.int 1),
                      ("name", Value.str "x")]) ∧
    ∃ outp,
      build_output (.obj [("kind", Value.str "Pod"),
        ("metadata", Value.obj [("uid", Value.str "u1"), ("junk", Value.int 1),
                                ("name", Value.str "x")])]) = some outp ∧
      ∀ k : String,
        lookupV outp k =
          if k ∈ ["uid", "selfLink", "resourceVersion", "namespace", "name"]
          then lookupV [("uid", Value.str "u1"), ("junk", Value.int 1),
                        ("name", Value.str "x")] k else none :=
  ⟨rfl, build_output_spec _ _ rfl⟩


/-- Assigning a key that a dict does not yet bind appends the binding. -/
theorem setKey_absent {md : List (String × Value)} {k : String} (v : Value)
    (h : lookupV md k = none) : setKey md k v = md ++ [(k, v)] := by
  induction md with
  | nil => rfl
  | cons kw rest ih =>
    obtain ⟨k', w⟩ := kw
    by_cases hk : k' = k
    · simp [lookupV, hk] at h
    · simp only [lookupV, if_neg hk] at h
      simp [setKey, hk, ih h]

/-- C6: `generate_name` returns the manifest unchanged when it has no
`metadata` key or when `metadata` already binds `name` or `generateName`;
otherwise a present (truthy) physical id sets `metadata.name` to its last
`/`-segment, and an absent physical id sets `metadata.generateName` to
`"cfn-" + stackName.lower() + "-"` where `stackName` is the second
`/`-segment of the stack id. -/
theorem generate_name_spec (kvs : List (String × Value)) (stackId sn : String)
    (hsn : (pySplitSlash stackId)[1]? = some sn) :
    (∀ pri, lookupV kvs "metadata" = none →
        generate_name (.obj kvs) stackId pri = some (.obj kvs)) ∧
    (∀ pri md, lookupV kvs "metadata" = some (.obj md) →
        ((lookupV md "name").isSome ∨ (lookupV md "generateName").isSome) →
        generate_name (.obj kvs) stackId pri = some (.obj kvs)) ∧
    (∀ md p, lookupV kvs "metadata" = some (.obj md) →
        lookupV md "name" = none → lookupV md "generateName" = none → p ≠ "" →
        generate_name (.obj kvs) stackId (some (.str p))
          = some (.obj (setKey kvs "metadata"
              (.obj (md ++ [("name", .str ((pySplitSlash p).getLastD ""))]))))) ∧
    (∀ md, lookupV kvs "metadata" = some (.obj md) →
        lookupV md "name" = none → lookupV md "generateName" = none →
        generate_name (.obj kvs) stackId none
          = some (.obj (setKey kvs "metadata"
              (.obj (md ++ [("generateName",
                .str ("cfn-" ++ pyLower sn ++ "-"))]))))) := by
  refine ⟨?_, ?_, ?_, ?_⟩
  · intro pri hmeta
    simp [generate_name, hsn, hmeta]
  · intro pri md hmeta hnamed
    have hb : ((lookupV md "name").isSome || (lookupV md "generateName").isSome) = true := by
      rcases hnamed with h | h <;> simp [h]
    simp [generate_name, hsn, hmeta, hb]
  · intro md p hmeta hn hg hp
    have htru : truthy (.str p) = true := by
      obtain ⟨data⟩ := p
      cases data with
      | nil => exact absurd rfl hp
      | cons a b => simp [truthy]
    simp [generate_name, hsn, hmeta, hn, hg, htru, setKey_absent _ hn]
  · intro md hmeta hn hg
    simp [generate_name, hsn, hmeta, hn, hg, setKey_absent _ hg]


/-- Witness for C6 at the specification's examples: a fresh `{metadata:{}}`
manifest gets `generateName` `"cfn-mystack-"` from the stack ARN when no
physical id exists, and gets `name` `"foo-123"` from a self-link-shaped
physical id. -/
theorem generate_name_spec_witness :
    (pySplitSlash "arn:aws:cloudformation:us-east-1:123456789012:stack/MyStack/abc-1")[1]?
        = some "MyStack" ∧
    lookupV [("metadata", Value.obj [])] "metadata" = some (.obj []) ∧
    generate_name (.obj [("metadata", Value.obj [])])
        "arn:aws:cloudformation:us-east-1:123456789012:stack/MyStack/abc-1" none
      = some (.obj [("metadata",
          Value.obj [("generateName", Value.str "cfn-mystack-")])]) ∧
    generate_name (.obj [("metadata", Value.obj [])])
        "arn:aws:cloudformation:us-east-1:123456789012:stack/MyStack/abc-1"
        (some (.str "/api/v1/namespaces/ns/pods/foo-123"))
      = some (.obj [("metadata", Value.obj [("name", Value.str "foo-123")])]) :=
  ⟨by decide, rfl,
   (generate_name_spec [("metadata", Value.obj [])] _ "MyStack" (by decide)).2.2.2
     [] rfl rfl rfl,
   (generate_name_spec [("metadata", Value.obj [])] _ "MyStack" (by decide)).2.2.1
     [] "/api/v1/namespaces/ns/pods/foo-123" rfl rfl rfl (by decide)⟩


/-- C1: on a Delete request whose recorded physical id matches the
fallback-id pattern, no `kubectl delete` is invoked and the terminal report is
a plain success with an empty payload; when the id does not match, the delete
command is invoked on the stored (named and coerced) manifest. The
hypotheses say the request carries a recorded id and that the steps before
the Delete branch (path validation, kubeconfig fetch, naming) succeed. -/
theorem delete_fallback_spec (ev : Event) (ctx : Ctx) (o : Oracle) (p : String)
    (bk : String × String) (gm : Value)
    (hdel : ev.requestType = "Delete")
    (hpri : ev.physicalResourceId = some p)
    (hs3 : "s3://".data.isPrefixOf ev.kubeConfigPath.data = true)
    (hcfg : get_config_details ev = .ok bk)
    (hkube : o.kubeconfigResult = .ok ())
    (hgen : generate_name ev.manifest ev.stackId (ev.physicalResourceId.map Value.str)
      = some gm) :
    (matchesFallback p = true →
      (lambda_handler_core ev o).deleteCall = none ∧
      (lambda_handler_core ev o).status = "SUCCESS" ∧
      (lambda_handler_core ev o).response_data = [] ∧
      (lambda_handler ev ctx o).1.status = "SUCCESS" ∧
      (lambda_handler ev ctx o).1.data = none) ∧
    (matchesFallback p = false →
      (lambda_handler_core ev o).deleteCall = some (fix_types gm)) := by
  have hcore : ∀ hm : Bool, matchesFallback p = hm →
      lambda_handler_core ev o =
        (if hm then
          ⟨"SUCCESS", [], some (.str p), none, none⟩
        else
          match o.deleteResult with
          | .error e => ⟨"FAILED", [], some (.str p), some e, some (fix_types gm)⟩
          | .ok _ => ⟨"SUCCESS", [], some (.str p), none, some (fix_types gm)⟩) := by
    intro hm hmeq
    rw [hpri] at hgen
    simp only [Option.map_some'] at hgen
    simp only [lambda_handler_core, hs3, hcfg, hkube, hpri, hgen, hdel, Option.map_some']
    norm_num
    cases hm with
    | true => simp [hmeq]
    | false => simp [hmeq]
  constructor
  · intro hm
    rw [hcore true hm]
    refine ⟨rfl, rfl, rfl, ?_, ?_⟩ <;>
      simp [lambda_handler, hcore true hm, send]
  · intro hm
    rw [hcore false hm]
    cases h : o.deleteResult <;> simp


/-- Witness for C1: a concrete Delete invocation whose recorded id has the
fallback shape is reported as a SUCCESS with no payload and no delete call. -/
theorem delete_fallback_spec_witness :
    matchesFallback "2020/01/01/[$LATEST]0123456789abcdef0123456789abcdef" = true ∧
    ((lambda_handler_core
        ⟨"Delete", .obj [], "s3://bucket/cfg",
         some "2020/01/01/[$LATEST]0123456789abcdef0123456789abcdef",
         "arn:aws:cloudformation:us-east-1:1:stack/S/u", "r", "l"⟩
        ⟨.ok (), .ok .null, .ok .null, .ok ()⟩).deleteCall = none ∧
     (lambda_handler_core
        ⟨"Delete", .obj [], "s3://bucket/cfg",
         some "2020/01/01/[$LATEST]0123456789abcdef0123456789abcdef",
         "arn:aws:cloudformation:us-east-1:1:stack/S/u", "r", "l"⟩
        ⟨.ok (), .ok .null, .ok .null, .ok ()⟩).status = "SUCCESS" ∧
     (lambda_handler_core
        ⟨"Delete", .obj [], "s3://bucket/cfg",
         some "2020/01/01/[$LATEST]0123456789abcdef0123456789abcdef",
         "arn:aws:cloudformation:us-east-1:1:stack/S/u", "r", "l"⟩
        ⟨.ok (), .ok .null, .ok .null, .ok ()⟩).response_data = [] ∧
     (lambda_handler
        ⟨"Delete", .obj [], "s3://bucket/cfg",
         some "2020/01/01/[$LATEST]0123456789abcdef0123456789abcdef",
         "arn:aws:cloudformation:us-east-1:1:stack/S/u", "r", "l"⟩
        ⟨"ls"⟩
        ⟨.ok (), .ok .null, .ok .null, .ok ()⟩).1.status = "SUCCESS" ∧
     (lambda_handler
        ⟨"Delete", .obj [], "s3://bucket/cfg",
         some "2020/01/01/[$LATEST]0123456789abcdef0123456789abcdef",
         "arn:aws:cloudformation:us-east-1:1:stack/S/u", "r", "l"⟩
        ⟨"ls"⟩
        ⟨.ok (), .ok .null, .ok .null, .ok ()⟩).1.data = none) :=
  ⟨by decide,
   (delete_fallback_spec
      ⟨"Delete", .obj [], "s3://bucket/cfg",
       some "2020/01/01/[$LATEST]0123456789abcdef0123456789abcdef",
       "arn:aws:cloudformation:us-east-1:1:stack/S/u", "r", "l"⟩
      ⟨"ls"⟩ ⟨.ok (), .ok .null, .ok .null, .ok ()⟩
      "2020/01/01/[$LATEST]0123456789abcdef0123456789abcdef"
      ("bucket", "cfg") (.obj []) rfl rfl (by decide) rfl rfl rfl).1 (by decide)⟩


/-- Outside the Create branch, the handler's internal physical id is either
still unset or exactly the id recorded in the event. -/
theorem lambda_handler_core_pri (ev : Event) (o : Oracle) (h : ev.requestType ≠ "Create") :
    (lambda_handler_core ev o).physical_resource_id = none ∨
    (lambda_handler_core ev o).physical_resource_id = ev.physicalResourceId.map Value.str := by
  generalize hout : lambda_handler_core ev o = out
  unfold lambda_handler_core at hout
  repeat' split at hout
  all_goals subst hout
  all_goals try simp_all
  all_goals repeat' split
  all_goals simp_all

/-- `send` reports the event's recorded id whenever the handler passes it
either nothing or that very id. -/
theorem send_pri_of_event (ev : Event) (ctx : Ctx) (st : String)
    (data : List (String × Value)) (err : Option String) (p : String)
    (hev : ev.physicalResourceId = some p) :
    ∀ pri, (pri = none ∨ pri = some (Value.str p)) →
      (send ev ctx st data pri err).physicalResourceId = .str p := by
  rintro pri (rfl | rfl)
  · simp [send, hev]
  · by_cases hp : truthy (Value.str p) = true
    · simp [send, hp]
    · simp [send, hp, hev]

/-- On a successful Create the handler's physical id is exactly the
`selfLink` field of the extracted output. -/
theorem lambda_handler_core_create (ev : Event) (o : Oracle)
    (hc : ev.requestType = "Create")
    (hs : (lambda_handler_core ev o).status = "SUCCESS") :
    (lambda_handler_core ev o).physical_resource_id
      = lookupV (lambda_handler_core ev o).response_data "selfLink" := by
  generalize hout : lambda_handler_core ev o = out at hs ⊢
  unfold lambda_handler_core at hout
  repeat' split at hout
  all_goals subst hout
  all_goals try simp_all
  all_goals repeat' split
  all_goals simp_all

/-- C8: an Update request never changes the physical resource id — the id
reported after an Update (indeed, after any non-Create request) is the id
supplied in the request — and only the Create branch assigns a new physical
id, namely the created object's `selfLink`. -/
theorem update_preserves_physical_id (ev : Event) (ctx : Ctx) (o : Oracle) (p : String)
    (hp : ev.physicalResourceId = some p) :
    (ev.requestType = "Update" →
      (lambda_handler ev ctx o).1.physicalResourceId = .str p) ∧
    (ev.requestType ≠ "Create" →
      (lambda_handler ev ctx o).1.physicalResourceId = .str p) ∧
    (ev.requestType = "Create" → (lambda_handler_core ev o).status = "SUCCESS" →
      (lambda_handler_core ev o).physical_resource_id
        = lookupV (lambda_handler_core ev o).response_data "selfLink") := by
  have h2 : ev.requestType ≠ "Create" →
      (lambda_handler ev ctx o).1.physicalResourceId = .str p := by
    intro h
    have hpri := lambda_handler_core_pri ev o h
    rw [hp] at hpri
    simp only [Option.map_some'] at hpri
    show (send ev ctx _ _ _ _).physicalResourceId = .str p
    exact send_pri_of_event ev ctx _ _ _ p hp _ hpri
  exact ⟨fun h => h2 (by rw [h]; decide), h2, lambda_handler_core_create ev o⟩

/-- Witness for C8: a concrete successful Update reports exactly the supplied
physical id. -/
theorem update_preserves_physical_id_witness :
    (⟨"Update", .obj [], "s3://bucket/cfg", some "/api/v1/ns/d/pods/x",
      "arn:aws:cloudformation:us-east-1:1:stack/S/u", "r", "l"⟩ : Event).physicalResourceId
      = some "/api/v1/ns/d/pods/x" ∧
    (lambda_handler
      ⟨"Update", .obj [], "s3://bucket/cfg", some "/api/v1/ns/d/pods/x",
       "arn:aws:cloudformation:us-east-1:1:stack/S/u", "r", "l"⟩
      ⟨"ls"⟩
      ⟨.ok (), .ok .null, .ok (.obj [("metadata", .obj [("uid", .str "u1")])]), .ok ()⟩).1.physicalResourceId
      = .str "/api/v1/ns/d/pods/x" :=
  ⟨rfl,
   (update_preserves_physical_id
      ⟨"Update", .obj [], "s3://bucket/cfg", some "/api/v1/ns/d/pods/x",
       "arn:aws:cloudformation:us-east-1:1:stack/S/u", "r", "l"⟩
      ⟨"ls"⟩
      ⟨.ok (), .ok .null, .ok (.obj [("metadata", .obj [("uid", .str "u1")])]), .ok ()⟩
      "/api/v1/ns/d/pods/x" rfl).1 rfl⟩


/-- A Python split never returns an empty piece list. -/
theorem pySplit_ne_nil (sep : Char) (s : List Char) : pySplit sep s ≠ [] := by
  induction s with
  | nil => simp [pySplit]
  | cons c cs ih =>
    by_cases hc : c = sep
    · simp [pySplit, hc]
    · cases h : pySplit sep cs with
      | nil => exact absurd h ih
      | cons p ps => simp [pySplit, hc, h]

/-- Splitting a separator-free string yields the single whole piece. -/
theorem pySplit_no_sep {sep : Char} : ∀ {s : List Char}, sep ∉ s → pySplit sep s = [s] := by
  intro s
  induction s with
  | nil => intro _; rfl
  | cons c cs ih =>
    intro h
    have hc : ¬ c = sep := fun hq => h (hq ▸ List.mem_cons_self c cs)
    have hcs : sep ∉ cs := fun hq => h (List.mem_cons_of_mem _ hq)
    simp [pySplit, hc, ih hcs]

/-- Splitting distributes over a separator occurrence. -/
theorem pySplit_append (sep : Char) (a b : List Char) :
    pySplit sep (a ++ sep :: b) = pySplit sep a ++ pySplit sep b := by
  induction a with
  | nil => simp [pySplit]
  | cons c a' ih =>
    by_cases hc : c = sep
    · simp [pySplit, hc, ih]
    · cases h : pySplit sep a' with
      | nil => exact absurd h (pySplit_ne_nil sep a')
      | cons p ps =>
        simp only [List.cons_append, pySplit, if_neg hc, h]
        simp only [List.append_eq]
        rw [ih, h]
        simp

/-- If no split piece is empty, the string does not start with the
separator. -/
theorem pySplit_head {sep : Char} {s : List Char} (h : [] ∉ pySplit sep s) :
    ∀ c, s.head? = some c → ¬ c = sep := by
  intro c hc hcs
  subst hcs
  cases s with
  | nil => simp at hc
  | cons a cs =>
    simp at hc
    subst hc
    simp [pySplit] at h

/-- If no split piece is empty, the string does not end with the
separator. -/
theorem pySplit_last {sep : Char} {s : List Char} (h : [] ∉ pySplit sep s) :
    ¬ s.getLast? = some sep := by
  intro hlast
  have hne : s ≠ [] := by rintro rfl; simp at hlast
  have hg : s.getLast hne = sep := by
    rw [List.getLast?_eq_getLast s hne] at hlast
    exact Option.some.inj hlast
  have hdecomp : s.dropLast ++ [sep] = s := by
    rw [← hg]
    exact List.dropLast_append_getLast hne
  rw [← hdecomp, pySplit_append sep s.dropLast []] at h
  simp [pySplit] at h

/-- `dropWhile` is the identity when the head fails the test. -/
theorem dropWhile_head_false {p : Char → Bool} {l : List Char}
    (h : ∀ c, l.head? = some c → p c = false) : l.dropWhile p = l := by
  cases l with
  | nil => rfl
  | cons c cs => simp [List.dropWhile, h c rfl]

/-- Stripping dots from a string whose `'.'`-split has no empty piece is the
identity. -/
theorem pyStripDots_eq_self {s : List Char} (h : [] ∉ pySplit '.' s) :
    pyStripDots s = s := by
  unfold pyStripDots
  have h1 : s.dropWhile (fun c => c = '.') = s := by
    apply dropWhile_head_false
    intro c hc
    simp [pySplit_head h c hc]
  rw [h1]
  have h2 : s.reverse.dropWhile (fun c => c = '.') = s.reverse := by
    apply dropWhile_head_false
    intro c hc
    rw [List.head?_reverse] at hc
    have := pySplit_last h
    have hcne : ¬ c = '.' := by rintro rfl; exact this hc
    simp [hcne]
  rw [h2, List.reverse_reverse]


/-- `takeWhile`/`dropWhile` on a digit run followed by `']'`. -/
theorem digits_take_drop {ds : List Char} (r : List Char)
    (hds : ∀ c ∈ ds, c.isDigit = true) :
    (ds ++ ']' :: r).takeWhile Char.isDigit = ds ∧
      (ds ++ ']' :: r).dropWhile Char.isDigit = ']' :: r := by
  induction ds with
  | nil => simp [List.takeWhile, List.dropWhile]
  | cons d ds' ih =>
    have hd : d.isDigit = true := hds d (List.mem_cons_self _ _)
    have ih' := ih fun c hc => hds c (List.mem_cons_of_mem _ hc)
    simp [List.takeWhile, List.dropWhile, hd, ih'.1, ih'.2]

/-- An index token at the head of a chunk parses. -/
theorem tryIdx_token {ds : List Char} (r : List Char) (hne : ds ≠ [])
    (hds : ∀ c ∈ ds, c.isDigit = true) :
    tryIdx (ds ++ ']' :: r) = some (digitsToNat ds, r) := by
  obtain ⟨htake, hdrop⟩ := digits_take_drop r hds
  unfold tryIdx
  rw [htake, hdrop]
  cases ds with
  | nil => exact absurd rfl hne
  | cons d ds' => rfl

/-- `procChunks` always produces at least one piece. -/
theorem procChunks_ne_nil : ∀ (chunks : List (List Char)) (cur : List Char),
    (procChunks cur chunks).1 ≠ [] := by
  intro chunks
  induction chunks with
  | nil => intro cur; simp [procChunks]
  | cons c rest ih =>
    intro cur
    cases h : tryIdx c with
    | some nr => simp [procChunks, h]
    | none => simp [procChunks, h, ih]

/-- One more piece than indices, always. -/
theorem procChunks_length : ∀ (chunks : List (List Char)) (cur : List Char),
    (procChunks cur chunks).1.length = (procChunks cur chunks).2.length + 1 := by
  intro chunks
  induction chunks with
  | nil => intro cur; simp [procChunks]
  | cons c rest ih =>
    intro cur
    cases h : tryIdx c with
    | some nr => simp [procChunks, h, ih]
    | none => simp [procChunks, h, ih]

/-- The last element of a nonempty tail decides the last of the cons. -/
theorem getLast?_cons_ne {α : Type} (a : α) {l : List α} (h : l ≠ []) :
    (a :: l).getLast? = l.getLast? := by
  cases l with
  | nil => exact absurd rfl h
  | cons b t => rfl

/-- When the chunk list ends with a digit token chunk, the final split piece
is empty. -/
theorem procChunks_last {ds : List Char} (hne : ds ≠ [])
    (hds : ∀ c ∈ ds, c.isDigit = true) :
    ∀ (chunks : List (List Char)) (cur : List Char),
      ((procChunks cur (chunks ++ [ds ++ [']']])).1).getLast? = some [] := by
  intro chunks
  induction chunks with
  | nil =>
    intro cur
    have ht : tryIdx (ds ++ ']' :: []) = some (digitsToNat ds, []) :=
      tryIdx_token [] hne hds
    simp [procChunks, ht]
  | cons c rest ih =>
    intro cur
    cases h : tryIdx c with
    | some nr =>
      obtain ⟨n, r⟩ := nr
      simp only [List.cons_append, procChunks, h]
      rw [getLast?_cons_ne _ (procChunks_ne_nil _ _)]
      exact ih r
    | none =>
      simp only [List.cons_append, procChunks, h]
      exact ih (cur ++ '[' :: c)


/-- For an address ending in a bracketed index, the scan yields a final empty
piece and one more piece than indices. -/
theorem scanIdx_trailing_token {u ds : List Char} (hne : ds ≠ [])
    (hds : ∀ c ∈ ds, c.isDigit = true) :
    (scanIdx (u ++ '[' :: (ds ++ [']']))).1.getLast? = some [] ∧
      (scanIdx (u ++ '[' :: (ds ++ [']']))).1.length
        = (scanIdx (u ++ '[' :: (ds ++ [']']))).2.length + 1 := by
  have hnb : '[' ∉ ds ++ [']'] := by
    intro hmem
    rcases List.mem_append.mp hmem with hm | hm
    · have := hds _ hm
      simp [Char.isDigit] at this
    · simp at hm
  have hsplit : pySplit '[' (u ++ '[' :: (ds ++ [']']))
      = pySplit '[' u ++ [ds ++ [']']] := by
    rw [pySplit_append, pySplit_no_sep hnb]
  cases hu : pySplit '[' u with
  | nil => exact absurd hu (pySplit_ne_nil _ _)
  | cons h t =>
    unfold scanIdx
    rw [hsplit, hu]
    simp only [List.cons_append]
    constructor
    · exact procChunks_last hne hds t h
    · exact procChunks_length _ _

/-- `buildSegs` on pieces ending in an empty piece, with aligned indices,
ends in the empty key followed by the synthetic empty index. -/
theorem buildSegs_trailing : ∀ (ps : List (List Char)) (idxs : List Nat),
    idxs.length = ps.length →
    ∃ front, buildSegs (ps ++ [[]]) idxs = front ++ [Seg.key "", Seg.idx []] := by
  intro ps
  induction ps with
  | nil =>
    intro idxs hlen
    have : idxs = [] := List.eq_nil_of_length_eq_zero hlen
    subst this
    exact ⟨[], rfl⟩
  | cons p ps' ih =>
    intro idxs hlen
    cases idxs with
    | nil => simp at hlen
    | cons i idxs' =>
      simp only [List.length_cons, Nat.add_right_cancel_iff] at hlen
      obtain ⟨front', hfront⟩ := ih idxs' hlen
      refine ⟨((pySplit '.' (pyStripDots p)).map fun k => Seg.key ⟨k⟩) ++ Seg.idx [i] :: front', ?_⟩
      simp only [List.cons_append, buildSegs]
      simp [hfront]

/-- For an address ending in a bracketed index, `to_path` ends in the
empty-string key segment. -/
theorem to_path_trailing_token (s : String) {u ds : List Char} (hne : ds ≠ [])
    (hds : ∀ c ∈ ds, c.isDigit = true)
    (hshape : s.data = u ++ '[' :: (ds ++ [']'])) :
    (to_path s).getLast? = some (Seg.key "") := by
  obtain ⟨hlast, hlen⟩ := @scanIdx_trailing_token u ds hne hds
  rw [← hshape] at hlast hlen
  have hpne : (scanIdx s.data).1 ≠ [] := by
    intro hq; rw [hq] at hlast; simp at hlast
  have hdecomp : (scanIdx s.data).1.dropLast ++ [(scanIdx s.data).1.getLast hpne]
      = (scanIdx s.data).1 := List.dropLast_append_getLast hpne
  have hglast : (scanIdx s.data).1.getLast hpne = [] := by
    rw [List.getLast?_eq_getLast _ hpne] at hlast
    exact Option.some.inj hlast
  rw [hglast] at hdecomp
  have hlen' : (scanIdx s.data).2.length = (scanIdx s.data).1.dropLast.length := by
    rw [List.length_dropLast]
    omega
  obtain ⟨front, hfront⟩ := buildSegs_trailing (scanIdx s.data).1.dropLast
    (scanIdx s.data).2 hlen'
  show ((buildSegs (scanIdx s.data).1 (scanIdx s.data).2).dropLast).getLast?
      = some (Seg.key "")
  rw [← hdecomp, hfront]
  have hassoc : front ++ [Seg.key "", Seg.idx []]
      = (front ++ [Seg.key ""]) ++ [Seg.idx []] := by simp
  rw [hassoc, List.dropLast_concat, List.getLast?_concat]


/-- C3 (amended): for every address string with no bracketed index (no `'['`
at all) and no empty `'.'`-component, `to_path` returns exactly the key
segments of the `'.'`-split, so its segment count equals the number of
`'.'`-delimited non-empty components; with interior bracketed indices each
index adds one further segment and the equality fails. -/
theorem to_path_length_amended (s : String)
    (hb : '[' ∉ s.data) (hc : [] ∉ pySplit '.' s.data) :
    to_path s = (pySplit '.' s.data).map (fun k => Seg.key ⟨k⟩) ∧
      (to_path s).length = numDotComponents s := by
  have hscan : scanIdx s.data = ([s.data], []) := by
    unfold scanIdx
    rw [pySplit_no_sep hb]
    rfl
  have hpath : to_path s = (pySplit '.' s.data).map (fun k => Seg.key ⟨k⟩) := by
    show ((buildSegs (scanIdx s.data).1 (scanIdx s.data).2).dropLast)
        = (pySplit '.' s.data).map fun k => Seg.key ⟨k⟩
    rw [hscan]
    show (((pySplit '.' (pyStripDots s.data)).map fun k => Seg.key ⟨k⟩)
        ++ [Seg.idx []]).dropLast = _
    rw [pyStripDots_eq_self hc, List.dropLast_concat]
  refine ⟨hpath, ?_⟩
  rw [hpath]
  unfold numDotComponents
  rw [List.length_map, List.filter_eq_self.mpr]
  intro p hp
  have : p ≠ [] := fun hq => hc (hq ▸ hp)
  simp [List.isEmpty_iff, this]

/-- Witness for the amended C3 on the concrete two-component address
`"a.b"`. -/
theorem to_path_length_amended_witness :
    '[' ∉ "a.b".data ∧ [] ∉ pySplit '.' "a.b".data ∧
      to_path "a.b" = [Seg.key "a", Seg.key "b"] ∧
      (to_path "a.b").length = numDotComponents "a.b" :=
  ⟨by decide, by decide,
   (to_path_length_amended "a.b" (by decide) (by decide)).1,
   (to_path_length_amended "a.b" (by decide) (by decide)).2⟩


/-- Unpacking `noEmptyKey` over dict entries. -/
theorem noEmptyKeyObj_mem : ∀ {kvs : List (String × Value)},
    noEmptyKeyObj kvs = true →
    ∀ pair ∈ kvs, ¬(pair.1 = "") ∧ noEmptyKey pair.2 = true := by
  intro kvs
  induction kvs with
  | nil => intro _ pair hp; simp at hp
  | cons kv rest ih =>
    obtain ⟨k, v⟩ := kv
    intro hv pair hp
    simp only [noEmptyKeyObj, Bool.and_eq_true] at hv
    rcases List.mem_cons.mp hp with hq | hq
    · subst hq
      refine ⟨?_, hv.1.2⟩
      have := hv.1.1
      simp at this
      simpa using this
    · exact ih hv.2 pair hq

/-- Unpacking `noEmptyKey` over list elements. -/
theorem noEmptyKeyArr_mem : ∀ {xs : List Value},
    noEmptyKeyArr xs = true → ∀ x ∈ xs, noEmptyKey x = true := by
  intro xs
  induction xs with
  | nil => intro _ x hx; simp at hx
  | cons y rest ih =>
    intro hv x hx
    simp only [noEmptyKeyArr, Bool.and_eq_true] at hv
    rcases List.mem_cons.mp hx with hq | hq
    · subst hq; exact hv.1
    · exact ih hv.2 x hq

/-- A dict whose entries all survive their walk survives its walk. -/
theorem traverseObj_skip (cb : List Seg → Value → Value) (path : List Seg) :
    ∀ kvs : List (String × Value),
      (∀ pair ∈ kvs, traverse cb (path ++ [Seg.key pair.1]) pair.2 = pair.2) →
      traverseObj cb path kvs = kvs := by
  intro kvs
  induction kvs with
  | nil => intro _; rfl
  | cons kv rest ih =>
    obtain ⟨k, v⟩ := kv
    intro h
    simp only [traverseObj]
    rw [h (k, v) (List.mem_cons_self _ _),
      ih fun pair hp => h pair (List.mem_cons_of_mem _ hp)]

/-- A list whose elements all survive their walk (at any index) survives its
walk. -/
theorem traverseArr_skip (cb : List Seg → Value → Value) (path : List Seg) :
    ∀ (xs : List Value) (i : Nat),
      (∀ x ∈ xs, ∀ j : Nat, traverse cb (path ++ [Seg.idx [j]]) x = x) →
      traverseArr cb path i xs = xs := by
  intro xs
  induction xs with
  | nil => intro _ _; rfl
  | cons y rest ih =>
    intro i h
    simp only [traverseArr]
    rw [h y (List.mem_cons_self _ _) i,
      ih (i + 1) fun x hx => h x (List.mem_cons_of_mem _ hx)]

/-- If the target address ends in the empty key and the tree has no
empty-string dict key, the targeted walk matches no node: every node passes
through unchanged. -/
theorem traverse_skip (a : Value → Value) (tp : List Seg)
    (htp : tp.getLast? = some (Seg.key "")) :
    ∀ v, noEmptyKey v = true → ∀ path, path ≠ tp →
      traverse (fun q w => if q = tp then a w else w) path v = v := by
  intro v
  induction v using Value.myInduction with
  | hobj kvs ih =>
    intro hv path hpath
    have hmem := @noEmptyKeyObj_mem kvs (by simpa [noEmptyKey] using hv)
    have hkvs : traverseObj (fun q w => if q = tp then a w else w) path kvs = kvs := by
      apply traverseObj_skip
      intro pair hp
      have hne : path ++ [Seg.key pair.1] ≠ tp := by
        intro heq
        have := congrArg List.getLast? heq
        rw [List.getLast?_concat, htp] at this
        exact (hmem pair hp).1 (by simpa [Seg.key.injEq] using this)
      exact ih pair hp (hmem pair hp).2 _ hne
    simp [traverse, hkvs, if_neg hpath]
  | harr xs ih =>
    intro hv path hpath
    have hmem := @noEmptyKeyArr_mem xs (by simpa [noEmptyKey] using hv)
    have hxs : traverseArr (fun q w => if q = tp then a w else w) path 0 xs = xs := by
      apply traverseArr_skip
      intro x hx j
      have hne : path ++ [Seg.idx [j]] ≠ tp := by
        intro heq
        have := congrArg List.getLast? heq
        rw [List.getLast?_concat, htp] at this
        simp at this
      exact ih x hx (hmem x hx) _ hne
    simp [traverse, hxs, if_neg hpath]
  | hstr s => intro _ path hpath; simp [traverse, if_neg hpath]
  | hint n => intro _ path hpath; simp [traverse, if_neg hpath]
  | hbool b => intro _ path hpath; simp [traverse, if_neg hpath]
  | hnull => intro _ path hpath; simp [traverse, if_neg hpath]

/-- C10's universal half is false on the code at a concrete input: a tree
with an empty-string dict key does contain a node whose traversal path ends
in the empty key, so a target parsed from an index-trailing address can
match it and the tree is modified. -/
theorem trailing_index_counterexample :
    traverse_modify (.obj [("a", .arr [.obj [("", .int 5)]])]) "a[0]"
        (fun _ => Value.null)
      ≠ .obj [("a", .arr [.obj [("", .int 5)]])] := by
  have h : traverse_modify (.obj [("a", .arr [.obj [("", .int 5)]])]) "a[0]"
      (fun _ => Value.null) = .obj [("a", .arr [.obj [("", Value.null)]])] := rfl
  rw [h]
  simp

/-- C10 (amended): for every address ending in a bracketed index, `to_path`
ends in the empty-string key segment, and on every tree without empty-string
dict keys `traverse_modify` with such a target applies its action to no node
and returns the input unchanged. -/
theorem trailing_index_amended (s : String) (u ds : List Char) (v : Value)
    (a : Value → Value)
    (hshape : s.data = u ++ '[' :: (ds ++ [']'])) (hne : ds ≠ [])
    (hds : ∀ c ∈ ds, c.isDigit = true) (hv : noEmptyKey v = true) :
    (to_path s).getLast? = some (Seg.key "") ∧ traverse_modify v s a = v := by
  have hlast := to_path_trailing_token s hne hds hshape
  refine ⟨hlast, ?_⟩
  show traverse (fun q w => if q = to_path s then a w else w) [] v = v
  apply traverse_skip a (to_path s) hlast v hv []
  intro hq
  rw [← hq] at hlast
  simp at hlast

/-- Witness for the amended C10 at the address `"a[0]"` on a small clean
tree. -/
theorem trailing_index_amended_witness :
    "a[0]".data = ['a'] ++ '[' :: (['0'] ++ [']']) ∧
    noEmptyKey (Value.obj [("a", Value.arr [Value.int 1])]) = true ∧
    (to_path "a[0]").getLast? = some (Seg.key "") ∧
    traverse_modify (Value.obj [("a", Value.arr [Value.int 1])]) "a[0]"
        (fun _ => Value.null)
      = Value.obj [("a", Value.arr [Value.int 1])] :=
  ⟨rfl, rfl,
   (trailing_index_amended "a[0]" ['a'] ['0']
      (Value.obj [("a", Value.arr [Value.int 1])]) (fun _ => Value.null)
      rfl (by decide) (by decide) rfl).1,
   (trailing_index_amended "a[0]" ['a'] ['0']
      (Value.obj [("a", Value.arr [Value.int 1])]) (fun _ => Value.null)
      rfl (by decide) (by decide) rfl).2⟩

end KubeManifest
